import Mathlib

/-!
Verification of the SPA router of the 0cfg-ui repository.

The router source (`Router`, `serialize`, `path`, `regex`, `getUrlParams`)
is embedded shallowly below:

* `SerializableLocation`, `serialize` embed the location snapshot record and
  the capture function.
* `path`, `regex` embed the predicate constructors; a `RegExp` is embedded by
  the only capability the source uses, its `test` function.
* `getUrlParams` embeds the query-string parser.  The platform pieces it
  relies on (`<a>`-element URL parsing, `decodeURIComponent`, JS string
  `split`, JS object key assignment) are embedded as executable functions on
  character lists (`urlSearch`, `percentDecode`, `splitOnChar`, `setKey`).
* `RouterState`, `enqueueStep`, `Step` embed the queue / single-flight
  consumer-loop machinery of `Router.enqueueCurrentRoute` / `Router.execRoute`
  as a small-step transition system; handlers are abstracted by the trace of
  their start/end events, since the router treats them as opaque async
  callables.
* `BridgeState`, `fireUnload`, `dispatchPopstate` embed the browser event
  bridge set up in the `Router` constructor together with the DOM dispatch
  rules it depends on.

The queue itself (`BufferQueue` from the package `@0cfg/utils-common`) is not
part of this repository; it is modelled from the spec (sections 4.3 and 9) as
an ordered FIFO list whose push appends, the overflow policy being an open
question left undecided by the spec.
-/

namespace ZeroCfgUi

/-- Embeds the `SerializableLocation` interface: the guaranteed serializable
view of `window.location`, nine string fields, declared in the order of the
source interface. -/
structure SerializableLocation where
  hash : String
  host : String
  hostname : String
  href : String
  origin : String
  pathname : String
  port : String
  protocol : String
  search : String
deriving DecidableEq, Repr

/-- The browser's live `Location` object, restricted to the data fields the
router reads (the live object also carries methods, which `serialize` does
not touch). -/
structure Location where
  hash : String
  host : String
  hostname : String
  href : String
  origin : String
  pathname : String
  port : String
  protocol : String
  search : String
deriving DecidableEq, Repr

/-- Field names of the `SerializableLocation` interface, in declaration
order, as written in the source. -/
def locationSnapshotFields : List String :=
  ["hash", "host", "hostname", "href", "origin", "pathname", "port",
   "protocol", "search"]

/-- Embeds `serialize`: the field-by-field copy of the live location into a
snapshot, with the field order of the source object literal. -/
def serialize (location : Location) : SerializableLocation :=
  { hash := location.hash
    hostname := location.hostname
    pathname := location.pathname
    search := location.search
    host := location.host
    href := location.href
    origin := location.origin
    port := location.port
    protocol := location.protocol }

/-- A JS `RegExp` as the router uses it: only its `test` method is ever
called, so it is embedded as that boolean test on strings. -/
structure RegExp where
  test : String → Bool

/-- Embeds the `regex` predicate constructor: regex matching on
`location.pathname`. -/
def regex (r : RegExp) : SerializableLocation → Bool :=
  fun location => r.test location.pathname

/-- Embeds the `path` predicate constructor: exact comparison with
`location.pathname`. -/
def path (p : String) : SerializableLocation → Bool :=
  fun location => p == location.pathname

/-! ### Query-string parsing (`getUrlParams`) -/

/-- JS `String.prototype.split` with a single-character separator, on
character lists.  Splitting the empty string yields `[[]]`, exactly as
`"".split(sep)` yields `[""]` in JS. -/
def splitOnChar (sep : Char) : List Char → List (List Char)
  | [] => [[]]
  | c :: rest =>
    match splitOnChar sep rest with
    | [] => [[]]
    | g :: gs => if c == sep then [] :: g :: gs else (c :: g) :: gs

/-- Characters of `l` strictly before the first occurrence of `sep`. -/
def takeUntilChar (sep : Char) : List Char → List Char
  | [] => []
  | c :: rest => if c == sep then [] else c :: takeUntilChar sep rest

/-- Characters of `l` strictly after the first occurrence of `sep`, or
`none` when `sep` does not occur. -/
def afterChar (sep : Char) : List Char → Option (List Char)
  | [] => none
  | c :: rest => if c == sep then some rest else afterChar sep rest

/-- Models the `search` component produced by assigning `href` on an anchor
element, for the URLs the parser is fed: the query is what stands between
the first `?` (itself not under the fragment) and the fragment, and `search`
is empty when the query is absent or empty, otherwise the query preceded by
`?`.  This mirrors the URL standard's `search` getter, which the source
reaches through `parser.search`. -/
def urlSearch (url : List Char) : List Char :=
  let query := (afterChar '?' (takeUntilChar '#' url)).getD []
  if query.isEmpty then [] else '?' :: query

/-- Value of a hexadecimal digit character, as used by percent-decoding:
code points 48-57 are the decimal digits, 65-70 and 97-102 the upper- and
lower-case letter digits. -/
def hexDigit (c : Char) : Option Nat :=
  if 48 ≤ c.toNat ∧ c.toNat ≤ 57 then some (c.toNat - 48)
  else if 65 ≤ c.toNat ∧ c.toNat ≤ 70 then some (c.toNat - 55)
  else if 97 ≤ c.toNat ∧ c.toNat ≤ 102 then some (c.toNat - 87)
  else none

/-- Models `decodeURIComponent` for the inputs the claims exercise:
well-formed single-byte `%XX` escapes are decoded to the character with that
code, other characters pass through unchanged.  (Multi-byte UTF-8 escape
sequences and the `URIError` raised on malformed escapes are outside the
scope of the claims.) -/
def percentDecode : List Char → List Char
  | '%' :: a :: b :: rest =>
    match hexDigit a, hexDigit b with
    | some hi, some lo => Char.ofNat (16 * hi + lo) :: percentDecode rest
    | _, _ => '%' :: percentDecode (a :: b :: rest)
  | c :: rest => c :: percentDecode rest
  | [] => []

/-- Models assignment `obj[k] = v` on a JS object viewed as an ordered
key/value list: an existing key keeps its position and gets the new value,
a new key is appended. -/
def setKey : List (String × String) → String → String → List (String × String)
  | [], k, v => [(k, v)]
  | (k', v') :: rest, k, v =>
    if k' == k then (k', v) :: rest else (k', v') :: setKey rest k v

/-- Lookup `obj[k]` on the ordered key/value list. -/
def getKey : List (String × String) → String → Option String
  | [], _ => none
  | (k', v') :: rest, k => if k' == k then some v' else getKey rest k

/-- The key of one `k=v` fragment of the query string: `pair[0]` of the
source, not decoded. -/
def pairKey (v : List Char) : String :=
  String.mk ((splitOnChar '=' v).headD [])

/-- The value the source stores for one `k=v` fragment:
`decodeURIComponent(pair[1])`.  When the fragment has no `=`, `pair[1]` is
the JS value `undefined`, which `decodeURIComponent` coerces to the literal
string `"undefined"`. -/
def pairValue (v : List Char) : String :=
  match (splitOnChar '=' v).get? 1 with
  | some raw => String.mk (percentDecode raw)
  | none => "undefined"

/-- Embeds `getUrlParams`: reads the query string of `url` through the
anchor-element parser, drops the leading `?`, splits on `&`, splits each
fragment on `=`, and assigns `params[pair[0]] = decodeURIComponent(pair[1])`
in order. -/
def getUrlParams (url : String) : List (String × String) :=
  let query := (urlSearch url.data).drop 1
  let vars := splitOnChar '&' query
  vars.foldl (fun params v => setKey params (pairKey v) (pairValue v)) []

/-- The last query fragment whose key equals `k`, if any. -/
def lastMatch (k : String) : List (List Char) → Option (List Char)
  | [] => none
  | v :: vs =>
    match lastMatch k vs with
    | some w => some w
    | none => if pairKey v == k then some v else none

/-! ### Browser event bridge (the `Router` constructor)

The constructor registers two listeners, both on `window`, both with default
options (non-capture, so they run in the target or bubble phase):

* on `unload`: if `location.pathname.startsWith(basePath)` then
  `e.preventDefault()` and `document.dispatchEvent(new Event('popstate'))`;
* on `popstate`: `e.preventDefault()` and `this.enqueueCurrentRoute()`.

The DOM facts this code depends on, embedded below: `new Event(name)` has
`bubbles = false`; for an event dispatched at `document`, the `window`
object sits above `document` in the event path, and a non-capture listener
registered on `window` runs only in the bubble phase, hence only when the
event bubbles. -/

/-- The two event targets the router touches. -/
inductive DomTarget where
  | window
  | document
deriving DecidableEq, Repr

/-- A DOM event as dispatch sees it: its type name and its `bubbles` flag
(`new Event(name)` leaves `bubbles` at `false`). -/
structure DomEvent where
  name : String
  bubbles : Bool
deriving DecidableEq, Repr

/-- State observed while exercising the bridge: the current location, whether
`preventDefault` was called on the unload event, and how many times
`enqueueCurrentRoute` was invoked. -/
structure BridgeState where
  loc : SerializableLocation
  defaultPrevented : Bool
  enqueues : Nat
deriving DecidableEq, Repr

/-- Whether a non-capture listener registered on `listenerTarget` runs for an
event dispatched at `dispatchTarget`: it runs at target, or in the bubble
phase when the listener sits on `window` above a dispatch at `document` and
the event bubbles. -/
def reachesListener (listenerTarget dispatchTarget : DomTarget)
    (bubbles : Bool) : Bool :=
  listenerTarget == dispatchTarget ||
    (dispatchTarget == DomTarget.document &&
      listenerTarget == DomTarget.window && bubbles)

/-- Effect of the router's `popstate` listener: `e.preventDefault()` (no
observable effect modelled on the synthetic event) then
`this.enqueueCurrentRoute()`. -/
def popstateListenerRun (st : BridgeState) : BridgeState :=
  { st with enqueues := st.enqueues + 1 }

/-- Dispatch of an event at `t`, restricted to the `popstate` listener the
constructor registered on `window`: the listener runs exactly when the DOM
dispatch rules deliver the event to it. -/
def dispatchPopstate (t : DomTarget) (ev : DomEvent) (st : BridgeState) :
    BridgeState :=
  if reachesListener DomTarget.window t ev.bubbles && (ev.name == "popstate")
  then popstateListenerRun st
  else st

/-- Effect of the router's `unload` listener: when the current pathname
starts with the base path, call `preventDefault` and dispatch
`new Event('popstate')` on `document`. -/
def unloadListenerRun (basePath : String) (st : BridgeState) : BridgeState :=
  if basePath.data.isPrefixOf st.loc.pathname.data then
    dispatchPopstate DomTarget.document
      { name := "popstate", bubbles := false }
      { st with defaultPrevented := true }
  else st

/-- Firing the `unload` event: the browser dispatches it at `window`, where
the router's unload listener is registered, so that listener runs. -/
def fireUnload (basePath : String) (st : BridgeState) : BridgeState :=
  unloadListenerRun basePath st

/-! ### The Router Engine queue machinery

`Router.enqueueCurrentRoute` and `Router.execRoute` as a small-step
transition system.  The state keeps the fields of the `Router` instance
(`routingQueue`, `routing`), the current address-bar snapshot (`loc`, what
`serialize(window.location)` yields at this instant), the multiset of
consumer-loop tasks in flight with their program position (`loops` — kept as
a list so that the single-flight property is a theorem, not a modelling
assumption), and three history variables recording what happened: `pushed`
(snapshots pushed, in push order), `dispatched` (snapshots popped by a
consumer loop, in pop order), `trace` (handler start/end events), `crashed`
(where an uncaught handler exception, if any, killed the loop).

A detour is embedded by its condition (`Option` of a predicate, absence
meaning "always fires"); its handler is opaque to the router, so handler
execution is abstracted into `start`/`end` events kept in `trace`.  The
suspension points of the source (`await listener.handler(location)`) become
the states in which a loop rests between steps; external triggers
(`navigateTo`, a `popstate` notification, a handler calling back into the
router) may interleave at any such point, a superset of the interleavings
the JS event loop allows. -/

/-- A detour condition: `Option` of a predicate on snapshots. -/
abbrev Detours := List (Option (SerializableLocation → Bool))

/-- Whether detour `i` fires for snapshot `c`:
`!has(listener.condition) || listener.condition(location)` at index `i`,
false past the end of the registration list. -/
def firesAt (D : Detours) (c : SerializableLocation) (i : Nat) : Bool :=
  match D[i]? with
  | some none => true
  | some (some p) => p c
  | none => false

/-- Program position of one consumer-loop task: at the `while` check, about
to consider detour `i` for snapshot `c`, or suspended inside handler `i` for
snapshot `c`.  `n` is the dispatch sequence number of `c` (its index in
`dispatched`). -/
inductive LoopPC where
  | loopTop
  | dispatch (c : SerializableLocation) (n i : Nat)
  | inHandler (c : SerializableLocation) (n i : Nat)
deriving DecidableEq, Repr

/-- One handler invocation event: handler of detour `j` for the snapshot
`loc` dispatched with sequence number `n`; `ended = false` records the
invocation starting, `ended = true` its returned work completing. -/
structure Ev where
  n : Nat
  j : Nat
  loc : SerializableLocation
  ended : Bool
deriving DecidableEq, Repr

/-- State of one `Router` instance plus history variables. -/
structure RouterState where
  loc : SerializableLocation
  queue : List SerializableLocation
  routing : Bool
  loops : List LoopPC
  pushed : List SerializableLocation
  dispatched : List SerializableLocation
  trace : List Ev
  crashed : Option (SerializableLocation × Nat × Nat)
deriving DecidableEq, Repr

/-- A fresh router: empty queue, `routing = false`, no consumer loop. -/
def initState (a : SerializableLocation) : RouterState :=
  { loc := a
    queue := []
    routing := false
    loops := []
    pushed := []
    dispatched := []
    trace := []
    crashed := none }

/-- Embeds `enqueueCurrentRoute`: push the snapshot of the current location,
return unless the queue now holds exactly one item and no loop is marked as
draining, otherwise start a consumer loop (which synchronously sets
`routing = true`).  The push is modelled, from the spec of `BufferQueue`, as
appending to the FIFO list. -/
def enqueueStep (s : RouterState) : RouterState :=
  if (s.queue ++ [s.loc]).length != 1 || s.routing then
    { s with queue := s.queue ++ [s.loc], pushed := s.pushed ++ [s.loc] }
  else
    { s with
        queue := s.queue ++ [s.loc]
        pushed := s.pushed ++ [s.loc]
        routing := true
        loops := s.loops ++ [LoopPC.loopTop] }

/-- Small-step transition relation of one router instance with detour
conditions `D`.

* `setLoc`: the address bar changes (`history.pushState` inside `setUrl`, or
  a user-driven back/forward); no dispatch is triggered.
* `enqueue`: a call to `enqueueCurrentRoute` — from `navigateTo`, from the
  `popstate` listener, or direct.
* `terminate`: the `while` check of a consumer loop sees an empty queue; the
  loop sets `routing = false` and finishes, in one synchronous block.
* `pop`: the `while` check sees a non-empty queue; the loop pops the oldest
  snapshot and enters `execRoute` for it.
* `skip`: the condition of detour `i` does not fire; move to detour `i + 1`.
* `handlerStart`: the condition of detour `i` fires; the handler is invoked
  and the loop suspends on `await`.
* `handlerEnd`: the awaited handler resolves; move to detour `i + 1`.
* `handlerThrow`: the awaited handler rejects; the exception propagates out
  of the async consumer loop, which dies without resetting `routing`.
* `snapDone`: all detours considered for this snapshot; back to the `while`
  check. -/
inductive Step (D : Detours) : RouterState → RouterState → Prop where
  | setLoc (s : RouterState) (c : SerializableLocation) :
      Step D s { s with loc := c }
  | enqueue (s : RouterState) :
      Step D s (enqueueStep s)
  | terminate (s : RouterState) (l₁ l₂ : List LoopPC)
      (hl : s.loops = l₁ ++ LoopPC.loopTop :: l₂) (hq : s.queue = []) :
      Step D s { s with loops := l₁ ++ l₂, routing := false }
  | pop (s : RouterState) (l₁ l₂ : List LoopPC)
      (c : SerializableLocation) (rest : List SerializableLocation)
      (hl : s.loops = l₁ ++ LoopPC.loopTop :: l₂)
      (hq : s.queue = c :: rest) :
      Step D s { s with
        queue := rest
        dispatched := s.dispatched ++ [c]
        loops := l₁ ++ LoopPC.dispatch c s.dispatched.length 0 :: l₂ }
  | skip (s : RouterState) (l₁ l₂ : List LoopPC)
      (c : SerializableLocation) (n i : Nat)
      (hl : s.loops = l₁ ++ LoopPC.dispatch c n i :: l₂)
      (hi : i < D.length) (hf : firesAt D c i = false) :
      Step D s { s with loops := l₁ ++ LoopPC.dispatch c n (i + 1) :: l₂ }
  | handlerStart (s : RouterState) (l₁ l₂ : List LoopPC)
      (c : SerializableLocation) (n i : Nat)
      (hl : s.loops = l₁ ++ LoopPC.dispatch c n i :: l₂)
      (hf : firesAt D c i = true) :
      Step D s { s with
        trace := s.trace ++ [⟨n, i, c, false⟩]
        loops := l₁ ++ LoopPC.inHandler c n i :: l₂ }
  | handlerEnd (s : RouterState) (l₁ l₂ : List LoopPC)
      (c : SerializableLocation) (n i : Nat)
      (hl : s.loops = l₁ ++ LoopPC.inHandler c n i :: l₂) :
      Step D s { s with
        trace := s.trace ++ [⟨n, i, c, true⟩]
        loops := l₁ ++ LoopPC.dispatch c n (i + 1) :: l₂ }
  | handlerThrow (s : RouterState) (l₁ l₂ : List LoopPC)
      (c : SerializableLocation) (n i : Nat)
      (hl : s.loops = l₁ ++ LoopPC.inHandler c n i :: l₂) :
      Step D s { s with loops := l₁ ++ l₂, crashed := some (c, n, i) }
  | snapDone (s : RouterState) (l₁ l₂ : List LoopPC)
      (c : SerializableLocation) (n i : Nat)
      (hl : s.loops = l₁ ++ LoopPC.dispatch c n i :: l₂)
      (hi : D.length ≤ i) :
      Step D s { s with loops := l₁ ++ LoopPC.loopTop :: l₂ }

/-- A state of the router reachable from a fresh instance whose address bar
shows `a`, under any interleaving of triggers and loop progress. -/
def Reachable (D : Detours) (a : SerializableLocation) (s : RouterState) :
    Prop :=
  Relation.ReflTransGen (Step D) (initState a) s

/-! ### The consumer-loop invariant -/

/-- The events `execRoute` has produced for snapshot `c` (sequence number
`n`) after having considered the detours of index `< i`: for each firing
detour, in registration order, a start event immediately followed by the
matching end event. -/
def blockUpTo (D : Detours) (c : SerializableLocation) (n i : Nat) :
    List Ev :=
  ((List.range i).filter (fun j => firesAt D c j)).bind
    (fun j => [⟨n, j, c, false⟩, ⟨n, j, c, true⟩])

/-- The full event sequence of dispatching the given snapshots one after the
other, numbering them from `n`. -/
def blocksFrom (D : Detours) : Nat → List SerializableLocation → List Ev
  | _, [] => []
  | n, c :: rest => blockUpTo D c n D.length ++ blocksFrom D (n + 1) rest

lemma blockUpTo_zero (D : Detours) (c : SerializableLocation) (n : Nat) :
    blockUpTo D c n 0 = [] := rfl

lemma blockUpTo_succ (D : Detours) (c : SerializableLocation) (n i : Nat) :
    blockUpTo D c n (i + 1) =
      blockUpTo D c n i ++
        (if firesAt D c i then [⟨n, i, c, false⟩, ⟨n, i, c, true⟩] else []) := by
  unfold blockUpTo
  rw [List.range_succ, List.filter_append]
  cases hf : firesAt D c i <;> simp [hf]

lemma blocksFrom_snoc (D : Detours) (k : Nat)
    (l : List SerializableLocation) (c : SerializableLocation) :
    blocksFrom D k (l ++ [c]) =
      blocksFrom D k l ++ blockUpTo D c (k + l.length) D.length := by
  induction l generalizing k with
  | nil => simp [blocksFrom]
  | cons a l ih =>
    show blockUpTo D a k D.length ++ blocksFrom D (k + 1) (l ++ [c]) =
      (blockUpTo D a k D.length ++ blocksFrom D (k + 1) l) ++
        blockUpTo D c (k + (l.length + 1)) D.length
    have harith : k + 1 + l.length = k + (l.length + 1) := by omega
    rw [ih (k + 1), harith, List.append_assoc]

lemma get?_snoc_self {α : Type} (l : List α) (a : α) :
    (l ++ [a])[l.length]? = some a := by
  induction l with
  | nil => rfl
  | cons b l ih => simpa using ih

lemma get?_snoc_of_some {α : Type} {l : List α} {a x : α} {n : Nat}
    (h : l[n]? = some x) : (l ++ [a])[n]? = some x := by
  induction l generalizing n with
  | nil => simp at h
  | cons b l ih =>
    cases n with
    | zero => simpa using h
    | succ m => simpa using ih (by simpa using h)

lemma loops_single {l₁ l₂ : List LoopPC} {pc : LoopPC}
    (h : (l₁ ++ pc :: l₂).length ≤ 1) : l₁ = [] ∧ l₂ = [] := by
  rcases l₁ with _ | ⟨a, l₁⟩ <;> rcases l₂ with _ | ⟨b, l₂⟩ <;>
    simp [List.length_append] at h ⊢

lemma lt_of_firesAt {D : Detours} {c : SerializableLocation} {i : Nat}
    (h : firesAt D c i = true) : i < D.length := by
  by_contra hge
  have hnone : D[i]? = none := List.getElem?_eq_none (by omega)
  unfold firesAt at h
  rw [hnone] at h
  simp at h

/-- What it means for one loop task at position `pc` to be consistent with
the history variables: the trace is exactly the blocks of the fully
dispatched snapshots followed by the open block of the snapshot under
dispatch. -/
def PcInv (D : Detours) (dispatched : List SerializableLocation)
    (trace : List Ev) : LoopPC → Prop
  | .loopTop => trace = blocksFrom D 0 dispatched
  | .dispatch c n i =>
      i ≤ D.length ∧
      ∃ front, dispatched = front ++ [c] ∧ n = front.length ∧
        trace = blocksFrom D 0 front ++ blockUpTo D c n i
  | .inHandler c n i =>
      firesAt D c i = true ∧
      ∃ front, dispatched = front ++ [c] ∧ n = front.length ∧
        trace = blocksFrom D 0 front ++ blockUpTo D c n i ++ [⟨n, i, c, false⟩]

/-- The router invariant: at most one consumer loop; the `routing` flag is
set exactly while a loop is alive or a crashed loop left it set; the pushes
are the dispatches followed by the queue content; every trace event at
sequence number `n` carries the `n`-th dispatched snapshot; each live loop —
and the crash record, if any — is consistent with the trace, which in their
absence is exactly the blocks of the dispatched snapshots. -/
def Inv (D : Detours) (s : RouterState) : Prop :=
  s.loops.length ≤ 1 ∧
  (s.routing = true ↔ (s.loops ≠ [] ∨ s.crashed ≠ none)) ∧
  s.pushed = s.dispatched ++ s.queue ∧
  (∀ e ∈ s.trace, s.dispatched[e.n]? = some e.loc) ∧
  (∀ pc ∈ s.loops, PcInv D s.dispatched s.trace pc) ∧
  (∀ x, s.crashed = some x →
    s.loops = [] ∧
      PcInv D s.dispatched s.trace (LoopPC.inHandler x.1 x.2.1 x.2.2)) ∧
  (s.loops = [] → s.crashed = none → s.trace = blocksFrom D 0 s.dispatched)

lemma inv_init (D : Detours) (a : SerializableLocation) :
    Inv D (initState a) := by
  unfold Inv initState
  refine ⟨by simp, by simp, by simp, by simp, by simp, by simp, ?_⟩
  intro _ _
  simp [blocksFrom]

lemma inv_step {D : Detours} {s s' : RouterState}
    (h : Step D s s') (hInv : Inv D s) : Inv D s' := by
  unfold Inv at hInv
  obtain ⟨h1, h2, h3, h4, h5, h6, h7⟩ := hInv
  unfold Inv
  cases h with
  | setLoc c =>
    exact ⟨h1, h2, h3, h4, h5, h6, h7⟩
  | enqueue =>
    unfold enqueueStep
    split
    · -- the call returns without starting a loop
      refine ⟨h1, h2, ?_, h4, h5, h6, h7⟩
      simpa [List.append_assoc] using congrArg (· ++ [s.loc]) h3
    · next hcond =>
      -- a new consumer loop is started
      have hcond' : (s.queue ++ [s.loc]).length = 1 ∧ s.routing = false := by
        simpa [not_or] using hcond
      have hroutF : s.routing = false := hcond'.2
      have hnl : s.loops = [] ∧ s.crashed = none := by
        rw [hroutF] at h2
        simp [not_or] at h2
        exact h2
      refine ⟨by simp [hnl.1], by simp [hnl.1], ?_, h4, ?_, ?_, ?_⟩
      · simpa [List.append_assoc] using congrArg (· ++ [s.loc]) h3
      · intro pc hpc
        rw [hnl.1] at hpc
        simp at hpc
        subst hpc
        exact h7 hnl.1 hnl.2
      · intro x hx
        rw [hnl.2] at hx
        cases hx
      · intro habs _
        rw [hnl.1] at habs
        simp at habs
  | terminate l₁ l₂ hl hq =>
    obtain ⟨e1, e2⟩ := loops_single (hl ▸ h1)
    subst e1; subst e2
    simp only [List.nil_append] at hl
    have hcr : s.crashed = none := by
      cases hx : s.crashed with
      | none => rfl
      | some x => have := (h6 x hx).1; rw [hl] at this; cases this
    have hpcInv := h5 LoopPC.loopTop (by rw [hl]; simp)
    refine ⟨by simp, by simp [hcr], h3, h4, ?_, ?_, ?_⟩
    · intro pc hpc; simp at hpc
    · intro x hx; rw [hcr] at hx; cases hx
    · intro _ _; exact hpcInv
  | pop l₁ l₂ c rest hl hq =>
    obtain ⟨e1, e2⟩ := loops_single (hl ▸ h1)
    subst e1; subst e2
    simp only [List.nil_append] at hl
    have hcr : s.crashed = none := by
      cases hx : s.crashed with
      | none => rfl
      | some x => have := (h6 x hx).1; rw [hl] at this; cases this
    have hrt : s.routing = true := h2.mpr (Or.inl (by rw [hl]; simp))
    have hpcInv := h5 LoopPC.loopTop (by rw [hl]; simp)
    refine ⟨by simp, by simp [hrt], ?_, ?_, ?_, ?_, ?_⟩
    · rw [h3, hq]; simp
    · intro e he
      exact get?_snoc_of_some (h4 e he)
    · intro pc hpc
      simp at hpc
      subst hpc
      have hTop : s.trace = blocksFrom D 0 s.dispatched := hpcInv
      exact ⟨Nat.zero_le _, s.dispatched, rfl, rfl,
        by simp [blockUpTo_zero, hTop]⟩
    · intro x hx; rw [hcr] at hx; cases hx
    · intro habs _; simp at habs
  | skip l₁ l₂ c n i hl hi hf =>
    obtain ⟨e1, e2⟩ := loops_single (hl ▸ h1)
    subst e1; subst e2
    simp only [List.nil_append] at hl
    have hcr : s.crashed = none := by
      cases hx : s.crashed with
      | none => rfl
      | some x => have := (h6 x hx).1; rw [hl] at this; cases this
    have hrt : s.routing = true := h2.mpr (Or.inl (by rw [hl]; simp))
    obtain ⟨hile, front, hfr, hn, htr⟩ :=
      h5 (LoopPC.dispatch c n i) (by rw [hl]; simp)
    refine ⟨by simp, by simp [hrt], h3, h4, ?_, ?_, ?_⟩
    · intro pc hpc
      simp at hpc
      subst hpc
      exact ⟨by omega, front, hfr, hn,
        by rw [htr, blockUpTo_succ, hf]; simp⟩
    · intro x hx; rw [hcr] at hx; cases hx
    · intro habs _; simp at habs
  | handlerStart l₁ l₂ c n i hl hf =>
    obtain ⟨e1, e2⟩ := loops_single (hl ▸ h1)
    subst e1; subst e2
    simp only [List.nil_append] at hl
    have hcr : s.crashed = none := by
      cases hx : s.crashed with
      | none => rfl
      | some x => have := (h6 x hx).1; rw [hl] at this; cases this
    have hrt : s.routing = true := h2.mpr (Or.inl (by rw [hl]; simp))
    obtain ⟨hile, front, hfr, hn, htr⟩ :=
      h5 (LoopPC.dispatch c n i) (by rw [hl]; simp)
    refine ⟨by simp, by simp [hrt], h3, ?_, ?_, ?_, ?_⟩
    · intro e he
      rcases List.mem_append.mp he with hin | hnew
      · exact h4 e hin
      · simp at hnew
        subst hnew
        rw [hfr, hn]
        exact get?_snoc_self front c
    · intro pc hpc
      simp at hpc
      subst hpc
      exact ⟨hf, front, hfr, hn, by rw [htr]⟩
    · intro x hx; rw [hcr] at hx; cases hx
    · intro habs _; simp at habs
  | handlerEnd l₁ l₂ c n i hl =>
    obtain ⟨e1, e2⟩ := loops_single (hl ▸ h1)
    subst e1; subst e2
    simp only [List.nil_append] at hl
    have hcr : s.crashed = none := by
      cases hx : s.crashed with
      | none => rfl
      | some x => have := (h6 x hx).1; rw [hl] at this; cases this
    have hrt : s.routing = true := h2.mpr (Or.inl (by rw [hl]; simp))
    obtain ⟨hf, front, hfr, hn, htr⟩ :=
      h5 (LoopPC.inHandler c n i) (by rw [hl]; simp)
    have hlen := lt_of_firesAt hf
    refine ⟨by simp, by simp [hrt], h3, ?_, ?_, ?_, ?_⟩
    · intro e he
      rcases List.mem_append.mp he with hin | hnew
      · exact h4 e hin
      · simp at hnew
        subst hnew
        rw [hfr, hn]
        exact get?_snoc_self front c
    · intro pc hpc
      simp at hpc
      subst hpc
      refine ⟨by omega, front, hfr, hn, ?_⟩
      rw [htr, blockUpTo_succ, hf]
      simp
    · intro x hx; rw [hcr] at hx; cases hx
    · intro habs _; simp at habs
  | handlerThrow l₁ l₂ c n i hl =>
    obtain ⟨e1, e2⟩ := loops_single (hl ▸ h1)
    subst e1; subst e2
    simp only [List.nil_append] at hl
    have hrt : s.routing = true := h2.mpr (Or.inl (by rw [hl]; simp))
    have hpcInv := h5 (LoopPC.inHandler c n i) (by rw [hl]; simp)
    refine ⟨by simp, by simp [hrt], h3, h4, ?_, ?_, ?_⟩
    · intro pc hpc; simp at hpc
    · intro x hx
      simp at hx
      subst hx
      exact ⟨rfl, hpcInv⟩
    · intro _ habs; cases habs
  | snapDone l₁ l₂ c n i hl hi =>
    obtain ⟨e1, e2⟩ := loops_single (hl ▸ h1)
    subst e1; subst e2
    simp only [List.nil_append] at hl
    have hcr : s.crashed = none := by
      cases hx : s.crashed with
      | none => rfl
      | some x => have := (h6 x hx).1; rw [hl] at this; cases this
    have hrt : s.routing = true := h2.mpr (Or.inl (by rw [hl]; simp))
    obtain ⟨hile, front, hfr, hn, htr⟩ :=
      h5 (LoopPC.dispatch c n i) (by rw [hl]; simp)
    have hieq : i = D.length := Nat.le_antisymm hile hi
    refine ⟨by simp, by simp [hrt], h3, h4, ?_, ?_, ?_⟩
    · intro pc hpc
      simp at hpc
      subst hpc
      show s.trace = blocksFrom D 0 s.dispatched
      rw [htr, hieq, hn, hfr, blocksFrom_snoc]
      simp
    · intro x hx; rw [hcr] at hx; cases hx
    · intro habs _; simp at habs

lemma inv_reachable {D : Detours} {a : SerializableLocation}
    {s : RouterState} (h : Reachable D a s) : Inv D s := by
  induction h with
  | refl => exact inv_init D a
  | tail _ hstep ih => exact inv_step hstep ih

/-! ### Concrete executions used to exercise the theorems -/

/-- A snapshot whose pathname is `/a`, all other fields empty. -/
def locA : SerializableLocation :=
  { hash := "", host := "", hostname := "", href := "", origin := "",
    pathname := "/a", port := "", protocol := "", search := "" }

/-- One registered detour with no condition (always fires). -/
def demoDetours : Detours := [none]

/-- State after one `enqueueCurrentRoute` on a fresh router: the consumer
loop has been started. -/
def stSpawn : RouterState := enqueueStep (initState locA)

/-- The loop popped the only snapshot. -/
def stPopped : RouterState :=
  { stSpawn with
      queue := []
      dispatched := [locA]
      loops := [LoopPC.dispatch locA 0 0] }

/-- The loop is suspended inside handler 0 for that snapshot. -/
def stInH : RouterState :=
  { stPopped with
      trace := [⟨0, 0, locA, false⟩]
      loops := [LoopPC.inHandler locA 0 0] }

/-- The handler resolved. -/
def stDone1 : RouterState :=
  { stInH with
      trace := [⟨0, 0, locA, false⟩, ⟨0, 0, locA, true⟩]
      loops := [LoopPC.dispatch locA 0 1] }

/-- All detours considered; back at the `while` check. -/
def stTop : RouterState := { stDone1 with loops := [LoopPC.loopTop] }

/-- The loop saw the empty queue and finished. -/
def stIdle : RouterState := { stTop with loops := [], routing := false }

/-- Alternative continuation from `stInH`: the handler threw; the loop died
with `routing` still `true`. -/
def stCrash : RouterState :=
  { stInH with loops := [], crashed := some (locA, 0, 0) }

lemma demo_reachable_inH : Reachable demoDetours locA stInH :=
  Relation.ReflTransGen.tail
    (Relation.ReflTransGen.tail
      (Relation.ReflTransGen.single (Step.enqueue (initState locA)))
      (Step.pop stSpawn [] [] locA [] rfl rfl))
    (Step.handlerStart stPopped [] [] locA 0 0 rfl rfl)

lemma demo_reachable_idle : Reachable demoDetours locA stIdle :=
  Relation.ReflTransGen.tail
    (Relation.ReflTransGen.tail
      (Relation.ReflTransGen.tail demo_reachable_inH
        (Step.handlerEnd stInH [] [] locA 0 0 rfl))
      (Step.snapDone stDone1 [] [] locA 0 1 rfl Nat.le.refl))
    (Step.terminate stTop [] [] rfl rfl)

lemma demo_reachable_crash : Reachable demoDetours locA stCrash :=
  Relation.ReflTransGen.tail demo_reachable_inH
    (Step.handlerThrow stInH [] [] locA 0 0 rfl)

lemma demo_reachable_busy :
    Reachable demoDetours locA (enqueueStep stInH) :=
  Relation.ReflTransGen.tail demo_reachable_inH (Step.enqueue stInH)

/-! ### Claims -/

/-- C1: for every Router Engine instance and every sequence of enqueue
triggers (`navigateTo` calls, `enqueueCurrentRoute` calls, `popstate`
notifications, in any interleaving permitted by the single-threaded
cooperative scheduling model), at most one consumer loop is actively
draining that instance's RoutingQueue at any time; no interleaving ever
results in two active consumer loops running concurrently.  In the model:
in every reachable state the list of live consumer-loop tasks has length at
most one. -/
theorem router_single_flight {D : Detours} {a : SerializableLocation}
    {s : RouterState} (h : Reachable D a s) : s.loops.length ≤ 1 :=
  (inv_reachable h).1

theorem router_single_flight_check : (enqueueStep stInH).loops.length ≤ 1 :=
  router_single_flight demo_reachable_busy

/-- C2: for any sequence of back-to-back `navigateTo` calls on one Router
Engine, listeners observe the resulting snapshots in exactly the order the
calls were issued.  In the model: in every reachable state the pushed
snapshots, in push order, are exactly the dispatched snapshots in dispatch
order followed by the still-queued ones in queue order (so dispatch order
is a prefix of push order and never out of order), and every handler
invocation event carrying sequence number `n` carries the `n`-th dispatched
snapshot. -/
theorem router_fifo_order {D : Detours} {a : SerializableLocation}
    {s : RouterState} (h : Reachable D a s) :
    s.pushed = s.dispatched ++ s.queue ∧
    ∀ e ∈ s.trace, s.dispatched[e.n]? = some e.loc :=
  ⟨(inv_reachable h).2.2.1, (inv_reachable h).2.2.2.1⟩

theorem router_fifo_order_check :
    (enqueueStep stInH).pushed =
      (enqueueStep stInH).dispatched ++ (enqueueStep stInH).queue ∧
    ∀ e ∈ (enqueueStep stInH).trace,
      (enqueueStep stInH).dispatched[e.n]? = some e.loc :=
  router_fifo_order demo_reachable_busy

/-- Sequential-dispatch shape of a trace: it is the concatenation of the
per-snapshot blocks in dispatch order — each block listing, for the firing
detours in registration order, a handler-start event immediately followed by
the matching handler-end event — except that the final block may be cut
short at a detour boundary or after a still-pending handler start.  No event
of a later snapshot ever stands before an event of an earlier one, and no
handler start stands before the end of the previous firing handler of the
same snapshot. -/
def SeqTrace (D : Detours) (dispatched : List SerializableLocation)
    (trace : List Ev) : Prop :=
  trace = blocksFrom D 0 dispatched ∨
  ∃ front c i, dispatched = front ++ [c] ∧
    (trace = blocksFrom D 0 front ++ blockUpTo D c front.length i ∨
     (firesAt D c i = true ∧
      trace = blocksFrom D 0 front ++ blockUpTo D c front.length i ++
        [⟨front.length, i, c, false⟩]))

/-- C3: for every single snapshot being dispatched, the registered Detours
are evaluated strictly in registration order, the later-registered Detour's
handler is never started before the earlier Detour's handler has fully
resolved, and handler executions for two different snapshots never
interleave.  In the model: the event trace of every reachable state has the
sequential-dispatch shape `SeqTrace`. -/
theorem router_sequential_dispatch {D : Detours} {a : SerializableLocation}
    {s : RouterState} (h : Reachable D a s) :
    SeqTrace D s.dispatched s.trace := by
  obtain ⟨h1, h2, h3, h4, h5, h6, h7⟩ := inv_reachable h
  rcases hl : s.loops with _ | ⟨pc, rest⟩
  · cases hcr : s.crashed with
    | none => exact Or.inl (h7 hl hcr)
    | some x =>
      obtain ⟨c, n, i⟩ := x
      obtain ⟨hf, front, hfr, hn, htr⟩ := (h6 _ hcr).2
      exact Or.inr ⟨front, c, i, hfr, Or.inr ⟨hf, by rw [htr, hn]⟩⟩
  · have hrest : rest = [] := by
      rw [hl] at h1
      simpa using h1
    subst hrest
    have hpc := h5 pc (by rw [hl]; simp)
    cases pc with
    | loopTop => exact Or.inl hpc
    | dispatch c n i =>
      obtain ⟨hile, front, hfr, hn, htr⟩ := hpc
      exact Or.inr ⟨front, c, i, hfr, Or.inl (by rw [htr, hn])⟩
    | inHandler c n i =>
      obtain ⟨hf, front, hfr, hn, htr⟩ := hpc
      exact Or.inr ⟨front, c, i, hfr, Or.inr ⟨hf, by rw [htr, hn]⟩⟩

theorem router_sequential_dispatch_check :
    SeqTrace demoDetours stIdle.dispatched stIdle.trace :=
  router_sequential_dispatch demo_reachable_idle

/-- C4: there exists an execution in which a registered handler throws an
uncaught exception during dispatch; the exception aborts the consumer loop
mid-drain and leaves the `routing` flag permanently `true`, so that every
subsequent `enqueueCurrentRoute` call returns without starting a new
consumer loop and no later navigation is ever dispatched.  In the model: a
reachable state exists with a crash record, `routing = true` and no live
loop; and from any state with `routing = true` and no live loop, every
further execution keeps `routing = true` and zero live loops and never
extends the dispatched list or the handler trace. -/
theorem router_crash_deadlock :
    (∃ s : RouterState, Reachable demoDetours locA s ∧
      s.crashed = some (locA, 0, 0) ∧ s.routing = true ∧ s.loops = []) ∧
    (∀ (D : Detours) (s s' : RouterState), s.routing = true → s.loops = [] →
      Relation.ReflTransGen (Step D) s s' →
      s'.routing = true ∧ s'.loops = [] ∧ s'.dispatched = s.dispatched ∧
        s'.trace = s.trace) := by
  constructor
  · exact ⟨stCrash, demo_reachable_crash, rfl, rfl, rfl⟩
  · intro D s s' hrt hnl hsteps
    induction hsteps with
    | refl => exact ⟨hrt, hnl, rfl, rfl⟩
    | tail _ hbc ih =>
      obtain ⟨ir, il, idp, itr⟩ := ih
      cases hbc with
      | setLoc c => exact ⟨ir, il, idp, itr⟩
      | enqueue =>
        unfold enqueueStep
        split
        · exact ⟨ir, il, idp, itr⟩
        · next hcond => rw [ir] at hcond; simp at hcond
      | terminate l₁ l₂ hl hq => rw [il] at hl; simp at hl
      | pop l₁ l₂ c rest hl hq => rw [il] at hl; simp at hl
      | skip l₁ l₂ c n i hl hi hf => rw [il] at hl; simp at hl
      | handlerStart l₁ l₂ c n i hl hf => rw [il] at hl; simp at hl
      | handlerEnd l₁ l₂ c n i hl => rw [il] at hl; simp at hl
      | handlerThrow l₁ l₂ c n i hl => rw [il] at hl; simp at hl
      | snapDone l₁ l₂ c n i hl hi => rw [il] at hl; simp at hl

theorem router_crash_deadlock_check :
    (enqueueStep stCrash).routing = true ∧
    (enqueueStep stCrash).loops = [] ∧
    (enqueueStep stCrash).dispatched = stCrash.dispatched ∧
    (enqueueStep stCrash).trace = stCrash.trace :=
  router_crash_deadlock.2 demoDetours stCrash (enqueueStep stCrash) rfl rfl
    (Relation.ReflTransGen.single (Step.enqueue stCrash))

/-- C5: every call to `enqueueCurrentRoute` captures the current address-bar
state and pushes it onto the RoutingQueue; it returns without starting a
consumer loop if and only if, after the push, the queue holds more than one
item or the draining flag is set; otherwise (queue holds exactly one item
and the flag is clear) it starts a new consumer loop, which marks itself
draining. -/
theorem enqueueCurrentRoute_contract (s : RouterState) :
    (enqueueStep s).queue = s.queue ++ [s.loc] ∧
    (enqueueStep s).pushed = s.pushed ++ [s.loc] ∧
    ((s.queue ++ [s.loc]).length > 1 ∨ s.routing = true →
      (enqueueStep s).loops = s.loops ∧
        (enqueueStep s).routing = s.routing) ∧
    ((s.queue ++ [s.loc]).length = 1 → s.routing = false →
      (enqueueStep s).loops = s.loops ++ [LoopPC.loopTop] ∧
        (enqueueStep s).routing = true) := by
  unfold enqueueStep
  split
  · next hcond =>
    refine ⟨rfl, rfl, fun _ => ⟨rfl, rfl⟩, ?_⟩
    intro hlen hroute
    rw [hlen, hroute] at hcond
    simp at hcond
  · next hcond =>
    have hok : (s.queue ++ [s.loc]).length = 1 ∧ s.routing = false := by
      simpa [not_or] using hcond
    refine ⟨rfl, rfl, ?_, fun _ _ => ⟨rfl, rfl⟩⟩
    intro hdis
    exfalso
    rcases hdis with hgt | hrt
    · have := hok.1
      omega
    · rw [hok.2] at hrt
      cases hrt

theorem enqueueCurrentRoute_contract_check :
    (enqueueStep (initState locA)).loops = [LoopPC.loopTop] ∧
    (enqueueStep (initState locA)).routing = true ∧
    (enqueueStep stSpawn).loops = [LoopPC.loopTop] ∧
    (enqueueStep stSpawn).routing = stSpawn.routing :=
  ⟨((enqueueCurrentRoute_contract (initState locA)).2.2.2 rfl rfl).1,
   ((enqueueCurrentRoute_contract (initState locA)).2.2.2 rfl rfl).2,
   ((enqueueCurrentRoute_contract stSpawn).2.2.1 (Or.inr rfl)).1,
   ((enqueueCurrentRoute_contract stSpawn).2.2.1 (Or.inr rfl)).2⟩

/-- A snapshot whose pathname is `/app/page`, inside the base path `/app`. -/
def appLoc : SerializableLocation :=
  { hash := "", host := "", hostname := "", href := "", origin := "",
    pathname := "/app/page", port := "", protocol := "", search := "" }

/-- A snapshot whose pathname is `/elsewhere`, outside the base path. -/
def awayLoc : SerializableLocation :=
  { hash := "", host := "", hostname := "", href := "", origin := "",
    pathname := "/elsewhere", port := "", protocol := "", search := "" }

/-- Fresh bridge observation state over location `l`. -/
def bridge0 (l : SerializableLocation) : BridgeState :=
  { loc := l, defaultPrevented := false, enqueues := 0 }

/-- C6, evaluated on the code as written: with `basePath = "/app"` and
current pathname `/app/page`, firing `unload` does call `preventDefault`,
but the synthesized `popstate` — a non-bubbling `Event` dispatched on
`document` while the `popstate` listener is registered on `window` — never
reaches that listener, so zero enqueues occur instead of the one the claim
requires.  Outside the base path, `unload` neither prevents default nor
enqueues, as the claim says.  The last two conjuncts show the control: the
same event dispatched at `window`, or dispatched at `document` with
`bubbles = true`, would reach the listener and enqueue exactly once. -/
theorem unload_popstate_never_delivered :
    (fireUnload "/app" (bridge0 appLoc)).defaultPrevented = true ∧
    (fireUnload "/app" (bridge0 appLoc)).enqueues = 0 ∧
    (fireUnload "/app" (bridge0 awayLoc)).defaultPrevented = false ∧
    (fireUnload "/app" (bridge0 awayLoc)).enqueues = 0 ∧
    (dispatchPopstate DomTarget.window
      { name := "popstate", bubbles := false } (bridge0 appLoc)).enqueues
      = 1 ∧
    (dispatchPopstate DomTarget.document
      { name := "popstate", bubbles := true } (bridge0 appLoc)).enqueues
      = 1 := by
  decide

/-- A snapshot whose pathname is `/x`, all other fields empty. -/
def locX : SerializableLocation :=
  { hash := "", host := "", hostname := "", href := "", origin := "",
    pathname := "/x", port := "", protocol := "", search := "" }

/-- A snapshot with the same pathname `/x` but a different hash, to exercise
pathname-only dependence. -/
def locXh : SerializableLocation :=
  { hash := "#h", host := "", hostname := "", href := "", origin := "",
    pathname := "/x", port := "", protocol := "", search := "" }

/-- A regular expression testing for the prefix `/a`, standing in for
`/^\/a/`. -/
def demoRegex : RegExp := ⟨fun str => "/a".data.isPrefixOf str.data⟩

/-- C7: the predicate returned by `path(p)` yields true exactly when the
snapshot's pathname is string-equal to `p`; the predicate returned by
`regex(r)` yields exactly `r.test` applied to the pathname; and both
predicates depend on nothing but the pathname component of the snapshot. -/
theorem path_regex_predicates :
    (∀ (p : String) (s : SerializableLocation),
      path p s = true ↔ s.pathname = p) ∧
    (∀ (r : RegExp) (s : SerializableLocation),
      regex r s = r.test s.pathname) ∧
    (∀ (p : String) (r : RegExp) (s₁ s₂ : SerializableLocation),
      s₁.pathname = s₂.pathname →
        path p s₁ = path p s₂ ∧ regex r s₁ = regex r s₂) := by
  refine ⟨?_, fun r s => rfl, ?_⟩
  · intro p s
    show (p == s.pathname) = true ↔ s.pathname = p
    rw [beq_iff_eq]
    exact eq_comm
  · intro p r s₁ s₂ hps
    exact ⟨by simp [path, hps], by simp [regex, hps]⟩

theorem path_regex_predicates_check :
    path "/x" locX = true ∧
    (path "/x" locXh = path "/x" locX ∧
      regex demoRegex locXh = regex demoRegex locX) :=
  ⟨(path_regex_predicates.1 "/x" locX).mpr rfl,
   path_regex_predicates.2.2 "/x" demoRegex locXh locX rfl⟩

lemma getKey_setKey (m : List (String × String)) (k v k' : String) :
    getKey (setKey m k v) k' = if k = k' then some v else getKey m k' := by
  induction m with
  | nil => by_cases h : k = k' <;> simp [setKey, getKey, h]
  | cons a m ih =>
    obtain ⟨k₀, v₀⟩ := a
    by_cases h0 : k₀ = k
    · subst h0
      by_cases h1 : k₀ = k' <;> simp [setKey, getKey, h1]
    · by_cases h1 : k₀ = k'
      · subst h1
        have hne : ¬k = k₀ := fun hkk => h0 hkk.symm
        simp [setKey, getKey, h0, hne]
      · simp [setKey, getKey, h0, h1, ih]

lemma getKey_foldl (vars : List (List Char)) (m : List (String × String))
    (k : String) :
    getKey
        (vars.foldl (fun params v => setKey params (pairKey v) (pairValue v))
          m) k =
      match lastMatch k vars with
      | some w => some (pairValue w)
      | none => getKey m k := by
  induction vars generalizing m with
  | nil => simp [lastMatch]
  | cons v vs ih =>
    rw [List.foldl_cons, ih]
    cases hlm : lastMatch k vs with
    | some w => simp [lastMatch, hlm]
    | none =>
      simp only [lastMatch, hlm]
      rw [getKey_setKey]
      by_cases hv : pairKey v = k <;> simp [hv]

/-- C8: `getUrlParams` parses the query string into a key-to-value mapping
in which each value is percent-decoded while keys are not, and when the same
key occurs more than once the mapping holds the value of the last
occurrence.  The two example equations of the claim are computed, the
encoded-pair example shows the key kept raw while the value is decoded, and
the last conjunct states overwrite semantics in general: looking up any key
in the result gives exactly the stored value of the last query fragment
bearing that key. -/
theorem getUrlParams_decode_last_wins :
    getUrlParams "http://x/?a=1&b=2" = [("a", "1"), ("b", "2")] ∧
    getUrlParams "http://x/?a=1&a=2" = [("a", "2")] ∧
    getUrlParams "http://x/?a%41=b%41" = [("a%41", "bA")] ∧
    ∀ (url k : String),
      getKey (getUrlParams url) k =
        (lastMatch k
          (splitOnChar '&' ((urlSearch url.data).drop 1))).map pairValue := by
  refine ⟨by decide, by decide, by decide, ?_⟩
  intro url k
  have hdef : getUrlParams url =
      (splitOnChar '&' ((urlSearch url.data).drop 1)).foldl
        (fun params v => setKey params (pairKey v) (pairValue v)) [] := rfl
  rw [hdef, getKey_foldl]
  cases hlm : lastMatch k (splitOnChar '&' ((urlSearch url.data).drop 1)) with
  | some w => simp only [hlm]; rfl
  | none => simp only [hlm]; rfl

/-- C10: for every input URL whose query string is empty, `getUrlParams`
does not return an empty mapping: it returns the single key `""` bound to
the literal string `"undefined"`, because the parser splits the empty query
into one empty fragment whose missing value is the JS `undefined`, coerced
to `"undefined"` by `decodeURIComponent`. -/
theorem getUrlParams_empty_query :
    getUrlParams "http://x/" = [("", "undefined")] ∧
    getUrlParams "http://x/?" = [("", "undefined")] ∧
    getUrlParams "http://x" = [("", "undefined")] := by
  decide

/-- C9 counterexample: the `SerializableLocation` record does not have eight
string fields — it has nine, so the claim's count is off by one. -/
theorem serializableLocation_not_eight_fields :
    locationSnapshotFields.length = 9 ∧
    ¬locationSnapshotFields.length = 8 := by
  decide

/-- C9 (amended): the capture operation `serialize` is pure, and for every
input location it copies exactly the nine string fields {hash, host,
hostname, href, origin, pathname, port, protocol, search} of the
`SerializableLocation` record from the live location into the snapshot,
with no field omitted, renamed, or transformed. -/
theorem serialize_copies_nine_fields (l : Location) :
    serialize l =
      { hash := l.hash, host := l.host, hostname := l.hostname,
        href := l.href, origin := l.origin, pathname := l.pathname,
        port := l.port, protocol := l.protocol, search := l.search } ∧
    (serialize l).hash = l.hash ∧
    (serialize l).host = l.host ∧
    (serialize l).hostname = l.hostname ∧
    (serialize l).href = l.href ∧
    (serialize l).origin = l.origin ∧
    (serialize l).pathname = l.pathname ∧
    (serialize l).port = l.port ∧
    (serialize l).protocol = l.protocol ∧
    (serialize l).search = l.search :=
  ⟨rfl, rfl, rfl, rfl, rfl, rfl, rfl, rfl, rfl, rfl⟩

end ZeroCfgUi
